import Mathlib

/-!
Shallow embedding of the scan/match/clean core of `cleaner.py` (the class
`Core` together with the module-level rule table `JUNK_FILES`), and theorems
checking the specification's claims against it.

Modelling conventions:
* paths are component lists relative to the scan root (Python compares
  normalized absolute path strings, which on one filesystem is the same
  equality);
* the filesystem snapshot seen by one scan is the listing produced by
  `scan_path.rglob("*")`, one `Entry` per filesystem object;
* the shared `threading.Event` abort flag is modelled by the index of the
  first worker check point at which the worker observes it set (`none` when
  it is never set during the run); the worker checks it at the top of every
  loop iteration and once after the loop, exactly as the code does;
* Python floats are modelled as exact rationals, and the one-decimal
  fixed-point float formatting as rounding with ties to even;
* `time.sleep` and filesystem mutation are modelled by recording the slept
  durations and the removed paths in the result of the deletion pass.
-/

/-- Lower-casing of a string as Python's `str.lower()` acts on the characters
involved here: ASCII letters are lowered, everything else is unchanged. -/
def lowerStr (s : String) : String := String.mk (s.data.map Char.toLower)

/-- Decides whether `pat` occurs as a contiguous substring of `hay`. -/
def containsSub (hay pat : String) : Bool :=
  List.any (List.range (hay.data.length + 1)) fun i =>
    pat.data.isPrefixOf (hay.data.drop i)

/-- Index of the last dot in a character list, if any (Python
`str.rfind('.')` restricted to a hit). -/
def lastDot : List Char → Option Nat
  | [] => none
  | c :: cs =>
    match lastDot cs with
    | some i => some (i + 1)
    | none => if c = '.' then some 0 else none

/-- Computes `pathlib.PurePath.suffix` from the final component: the part of
the name from its last dot on, and empty when the dot is absent, leading or
trailing. -/
def pySuffix (name : String) : String :=
  match lastDot name.data with
  | none => ""
  | some i =>
    if 0 < i ∧ i < name.data.length - 1 then String.mk (name.data.drop i) else ""

/-- One classification rule of `JUNK_FILES`: a literal string, or a compiled
regular expression. Both regular expressions appearing in the table are
literal-stem searches — `re.compile(r"\.zcompdump-.*")` finds a match in `s`
iff `".zcompdump-"` occurs in `s` (the trailing `.*` also matches the empty
string), and `re.compile(r"Cache", re.IGNORECASE)` iff `"Cache"` occurs up to
case — so a compiled pattern is embedded as its literal stem together with
its `re.IGNORECASE` flag. -/
inductive JunkPattern where
  | lit (s : String)
  | regex (stem : String) (ignoreCase : Bool)
deriving DecidableEq, Repr

/-- Evaluates `pattern.search(s)` for the patterns of the table: a
case-insensitive pattern compares both sides lowered, a case-sensitive one
compares raw; the result is whether a match exists anywhere in `s`. -/
def regexSearch (stem : String) (ignoreCase : Bool) (s : String) : Bool :=
  if ignoreCase then containsSub (lowerStr s) (lowerStr stem) else containsSub s stem

/-- Python truthiness of a rule, as tested by `if pattern` in the generator
inside `matches_patterns`: an empty literal is falsy, every compiled pattern
is truthy. -/
def JunkPattern.truthy : JunkPattern → Bool
  | .lit s => !s.isEmpty
  | .regex _ _ => true

/-- Embeds `matches_patterns` of `Core.scanner`: the candidate is lower-cased
once up front, then each truthy rule is tested — a literal by equality of its
lowered text with the lowered candidate, a compiled pattern by `search`
against the lowered candidate. -/
def matches_patterns (filename : String) (patterns : List JunkPattern) : Bool :=
  let f := lowerStr filename
  patterns.any fun p =>
    p.truthy &&
      (match p with
       | .lit s => lowerStr s == f
       | .regex stem ic => regexSearch stem ic f)

/-- The `names` category of `JUNK_FILES`. -/
def junkNames : List JunkPattern :=
  [.lit ".DS_Store", .lit "desktop.ini", .lit "Thumbs.db", .lit ".bash_history",
   .lit ".zsh_history", .lit "fish_history", .lit ".viminfo", .lit ".localized",
   .lit ".sharkgi", .lit ".lesshst", .lit ".python_history",
   .regex ".zcompdump-" false]

/-- The `extensions` category of `JUNK_FILES`. -/
def junkExtensions : List String := [".log", ".tmp", "temp", ".cache"]

/-- The `folders` category of `JUNK_FILES`. -/
def junkFolders : List JunkPattern :=
  [.lit "$RECYCLE.BIN", .lit "Logs", .lit "CrashReporter", .lit "tmp", .lit "temp",
   .lit "log", .lit "logs", .lit ".Trash", .lit ".fseventsd", .lit ".Spotlight-V100",
   .lit ".zsh_sessions", .lit "System Volume Information", .lit "Photo Booth Library",
   .lit "Automatically Add to Music.localized", .lit "Media.localized",
   .lit "Videos Library.tvlibrary", .lit "网易云音乐", .regex "Cache" true]

/-- Satisfaction of a single rule as §4.1 of the specification words it: a
(non-empty) literal matches only on exact case-insensitive equality of the
whole name; a regular-expression rule matches when its pattern is found
anywhere in the candidate under the rule's own case policy, the candidate
being lower-cased only for case-insensitive rules. -/
def ruleSatisfiedSpec (filename : String) : JunkPattern → Bool
  | .lit s => !s.isEmpty && (lowerStr s == lowerStr filename)
  | .regex stem ic =>
    if ic then containsSub (lowerStr filename) (lowerStr stem)
    else containsSub filename stem

/-- The matcher as the specification words it: true iff at least one rule of
the category is satisfied per `ruleSatisfiedSpec`. -/
def matchesSpec (filename : String) (patterns : List JunkPattern) : Bool :=
  patterns.any (ruleSatisfiedSpec filename)

/-- Satisfaction of a single rule as the code actually evaluates it: the
candidate is force-lowered for every rule, including case-sensitive regular
expressions, which are searched against the lowered candidate. -/
def ruleSatisfiedLowered (filename : String) : JunkPattern → Bool
  | .lit s => !s.isEmpty && (lowerStr s == lowerStr filename)
  | .regex stem ic => regexSearch stem ic (lowerStr filename)

/-- Messages put on `Core.queue` by the workers. -/
inductive Event where
  | found_item (path : List String) (kind : String) (size : Nat) (mtime : String)
  | scan_done (totalSize : Nat) (itemCount : Nat)
  | clean_error (path : List String) (msg : String)
  | clean_done
deriving DecidableEq, Repr

/-- One filesystem entry as yielded by `scan_path.rglob("*")`: its path
relative to the scan root (a non-empty component list), whether it is a
directory, its `st_size` (meaningful for files), and its formatted
`st_mtime`. -/
structure Entry where
  path : List String
  isDir : Bool
  size : Nat
  mtime : String
deriving DecidableEq, Repr

/-- The base name of an entry (`root_path.name`). -/
def Entry.name (e : Entry) : String := e.path.getLastD ""

/-- Decides whether `q` is a proper ancestor directory of `p`, i.e. `q` is a
proper prefix of the component list `p`. This is what the string test
`str(parent) in processed_paths` over `root_path.parents` detects for the
paths the scanner ever records. -/
def isAncestorOf (q p : List String) : Bool :=
  q.isPrefixOf p && decide (q.length < p.length)

/-- Evaluates `sum(f.stat().st_size for f in root_path.rglob('*') if
f.is_file())`: the total size of the non-directory entries strictly below
`p` in the scan listing. -/
def folderSize (entries : List Entry) (p : List String) : Nat :=
  ((entries.filter fun e => !e.isDir && isAncestorOf p e.path).map Entry.size).sum

/-- The accumulator of `Core.scanner`: running totals, the set of processed
directory paths, and the events put on the queue so far (in order). -/
structure ScanState where
  totalSize : Nat
  fileCount : Nat
  processed : List (List String)
  events : List Event
deriving DecidableEq, Repr

/-- The body of the `for root_path in scan_path.rglob("*")` loop of
`Core.scanner` for one entry, the abort check having been done by the caller:
skip the entry when any ancestor directory is already processed; a directory
whose name matches a folder rule is emitted as a Folder item with its
aggregated size and recorded as processed; otherwise a file whose name
matches a name rule, or whose lowered suffix is among the lowered junk
extensions, is emitted as a File item with its own size. -/
def scanStep (entries : List Entry) (st : ScanState) (e : Entry) : ScanState :=
  if st.processed.any fun q => isAncestorOf q e.path then st
  else if e.isDir then
    if matches_patterns e.name junkFolders then
      let size := folderSize entries e.path
      { totalSize := st.totalSize + size
        fileCount := st.fileCount + 1
        processed := st.processed ++ [e.path]
        events := st.events ++ [.found_item e.path "Folder" size e.mtime] }
    else st
  else
    if matches_patterns e.name junkNames
        || (junkExtensions.map lowerStr).contains (lowerStr (pySuffix e.name)) then
      { st with
        totalSize := st.totalSize + e.size
        fileCount := st.fileCount + 1
        events := st.events ++ [.found_item e.path "File" e.size e.mtime] }
    else st

/-- Observation of the shared `abort_event` at the worker's numbered check
points: `abortAt = some a` means the flag is seen set from check point `a`
on (the consumer set it between check points `a - 1` and `a`); `none` means
the worker never sees it set during this run. -/
def isAbortSet (abortAt : Option Nat) (checkpoint : Nat) : Bool :=
  match abortAt with
  | none => false
  | some a => decide (a ≤ checkpoint)

/-- The loop of `Core.scanner`: at the top of iteration `i` the abort flag is
checked — if set, the worker returns at once, leaving only the events already
queued and no summary; after the loop is exhausted the flag is checked once
more and `scan_done` with the accumulated totals is queued only when it is
still unset. -/
def scannerGo (entries : List Entry) (abortAt : Option Nat) :
    Nat → List Entry → ScanState → List Event
  | i, [], st =>
    if isAbortSet abortAt i then st.events
    else st.events ++ [.scan_done st.totalSize st.fileCount]
  | i, e :: rest, st =>
    if isAbortSet abortAt i then st.events
    else scannerGo entries abortAt (i + 1) rest (scanStep entries st e)

/-- Embeds `Core.scanner`: run the loop over the `rglob` listing starting
from zeroed totals, an empty processed set, and an empty queue. -/
def scanner (abortAt : Option Nat) (entries : List Entry) : List Event :=
  scannerGo entries abortAt 0 entries ⟨0, 0, [], []⟩

/-- One target path handed to `Core.cleaner`, bundled with the behavior of
the filesystem at it: whether `path.exists()`, whether `path.is_file()`, and
the message of the `OSError` that `path.unlink()` raises, if any
(`shutil.rmtree` is invoked with `ignore_errors=True` and never raises). -/
structure CleanItem where
  path : List String
  onDisk : Bool
  isFile : Bool
  unlinkError : Option String
deriving DecidableEq, Repr

/-- The observable outcome of one run of `Core.cleaner`: the events queued in
order, the paths removed in order, the sleep durations performed in order,
and the pacing delay the run computed. -/
structure CleanResult where
  events : List Event
  deleted : List (List String)
  sleeps : List ℚ
  delay : ℚ
deriving DecidableEq, Repr

/-- The loop body of `Core.cleaner` for one item, the abort check having been
done by the caller: a path that does not exist is skipped silently; an
existing file is unlinked — on success the pass sleeps `delay`, on `OSError`
it queues one `clean_error` with the path and `str(e)` and does not sleep; an
existing directory is removed by `shutil.rmtree(..., ignore_errors=True)`
(which never raises) and the pass then sleeps `delay`. -/
def cleanStep (delay : ℚ) (r : CleanResult) (it : CleanItem) : CleanResult :=
  if it.onDisk then
    if it.isFile then
      match it.unlinkError with
      | none =>
        { r with deleted := r.deleted ++ [it.path], sleeps := r.sleeps ++ [delay] }
      | some e =>
        { r with events := r.events ++ [.clean_error it.path e] }
    else
      { r with deleted := r.deleted ++ [it.path], sleeps := r.sleeps ++ [delay] }
  else r

/-- The loop of `Core.cleaner`: before each item the abort flag is checked —
if set the loop breaks; after the loop (exhausted or broken) exactly one
`clean_done` is queued unconditionally. -/
def cleanerGo (abortAt : Option Nat) (delay : ℚ) :
    Nat → List CleanItem → CleanResult → CleanResult
  | _, [], r => { r with events := r.events ++ [.clean_done] }
  | i, it :: rest, r =>
    if isAbortSet abortAt i then { r with events := r.events ++ [.clean_done] }
    else cleanerGo abortAt delay (i + 1) rest (cleanStep delay r it)

/-- Runs the deletion loop with an externally fixed pacing delay and no
abort; used to state what a cancelled pass has done so far. -/
def cleanerRun (delay : ℚ) (items : List CleanItem) : CleanResult :=
  cleanerGo none delay 0 items ⟨[], [], [], delay⟩

/-- Embeds `Core.cleaner`: compute `delay = 1.5 / len(items)` — zero for an
empty list — then run the loop over the items. -/
def cleaner (abortAt : Option Nat) (items : List CleanItem) : CleanResult :=
  let delay : ℚ := if 0 < items.length then (3 / 2) / (items.length : ℚ) else 0
  cleanerGo abortAt delay 0 items ⟨[], [], [], delay⟩

/-- The inter-thread state of one `Core` instance: the abort flag, the
contents of the queue, and whether a worker thread is currently running. -/
structure CoreState where
  abortSet : Bool
  queued : List Event
  workerRunning : Bool
deriving DecidableEq, Repr

/-- Embeds `Core.scan`: unconditionally clear the abort event, replace the
queue by a fresh empty one, drop the previous thread handle, and start a new
scanner worker. The method body has no error path — it never raises and
never returns a rejection, whatever the prior state. -/
def Core.scan (_s : CoreState) : Except String CoreState :=
  .ok { abortSet := false, queued := [], workerRunning := true }

/-- Embeds `Core.clean`: identical lifecycle handling to `Core.scan` — reset
the abort event, the queue and the thread handle unconditionally, then start
a new cleaner worker; no error path. -/
def Core.clean (_s : CoreState) : Except String CoreState :=
  .ok { abortSet := false, queued := [], workerRunning := true }

/-- Decides whether a lifecycle call surfaced a rejection to the caller. -/
def isRejection : Except String CoreState → Bool
  | .error _ => true
  | .ok _ => false

/-- The loop `for unit in ["B", "KB", "MB", "GB"]` of `Core.format_size`:
break before dividing when `size < 1024`, otherwise divide by 1024 and move
on — in the last iteration the division still happens even though no further
unit remains. Returns the final `size` and the last `unit` assigned. -/
def sizeLoop : ℚ → List String → ℚ × String
  | s, [] => (s, "")
  | s, [u] => if s < 1024 then (s, u) else (s / 1024, u)
  | s, u :: u' :: us => if s < 1024 then (s, u) else sizeLoop (s / 1024) (u' :: us)

/-- Rounds a non-negative rational to the nearest integer with ties to even,
the rounding used by Python's fixed-point float formatting. -/
def rhe (q : ℚ) : ℤ :=
  let f := ⌊q⌋
  if q - f > 1 / 2 then f + 1
  else if q - f < 1 / 2 then f
  else if f % 2 = 0 then f else f + 1

/-- Renders Python's one-decimal fixed-point float formatting for a
non-negative value: one decimal digit, ties to even. -/
def fmt1 (q : ℚ) : String :=
  let n := rhe (q * 10)
  toString (n / 10) ++ "." ++ toString (n % 10)

/-- Embeds `Core.format_size`. -/
def format_size (size : Nat) : String :=
  let r := sizeLoop (size : ℚ) ["B", "KB", "MB", "GB"]
  fmt1 r.1 ++ " " ++ r.2

/-- The size formatter as §6 of the specification words it: divide by 1024
until the scaled value is below 1024, but stop at `GB` — values of 1024 GB
and more stay rendered in `GB`, unscaled further. -/
def formatSizeSpec (size : Nat) : String :=
  if (size : ℚ) < 1024 then fmt1 (size : ℚ) ++ " B"
  else if (size : ℚ) < 1024 ^ 2 then fmt1 ((size : ℚ) / 1024) ++ " KB"
  else if (size : ℚ) < 1024 ^ 3 then fmt1 ((size : ℚ) / 1024 ^ 2) ++ " MB"
  else fmt1 ((size : ℚ) / 1024 ^ 3) ++ " GB"

/-- Recognizes a `found_item` event. -/
def isFound : Event → Bool
  | .found_item _ _ _ _ => true
  | _ => false

/-- Recognizes a `scan_done` event. -/
def isScanDone : Event → Bool
  | .scan_done _ _ => true
  | _ => false

/-- Recognizes a `clean_error` event. -/
def isCleanError : Event → Bool
  | .clean_error _ _ => true
  | _ => false

/-- Recognizes a `clean_done` event. -/
def isCleanDone : Event → Bool
  | .clean_done => true
  | _ => false

/-- The `sizeBytes` payloads of the `found_item` events of a stream, in
order. -/
def foundSizes (evs : List Event) : List Nat :=
  evs.filterMap fun ev =>
    match ev with
    | .found_item _ _ s _ => some s
    | _ => none

/-- The sum of the `sizeBytes` payloads of the `found_item` events of a
stream. -/
def sumFound (evs : List Event) : Nat := (foundSizes evs).sum

/-- The `clean_error` event the deletion pass queues for one item, if any: a
file that exists and whose unlink raises. -/
def failEvent (it : CleanItem) : Option Event :=
  if it.onDisk && it.isFile then
    it.unlinkError.map fun e => Event.clean_error it.path e
  else none

/-- The removal the deletion pass performs for one item, if any: an existing
directory, or an existing file whose unlink succeeds. -/
def delPath (it : CleanItem) : Option (List String) :=
  if it.onDisk then
    if it.isFile then
      match it.unlinkError with
      | none => some it.path
      | some _ => none
    else some it.path
  else none

/-- Bundled invariant of the scanner accumulator: no summary queued yet, and
the running totals agree with the `found_item` events queued so far. -/
def ScanInv (st : ScanState) : Prop :=
  st.events.countP isScanDone = 0 ∧
  st.events.countP isFound = st.fileCount ∧
  sumFound st.events = st.totalSize

/-- A two-entry scan fixture: a folder matching the `Logs` rule containing
one 100-byte file. -/
def demoEntries : List Entry :=
  [⟨["Logs"], true, 0, "m1"⟩, ⟨["Logs", "a.txt"], false, 100, "m2"⟩]

/-- A three-item clean fixture: the second path is already missing on disk,
the other two are existing files whose unlink succeeds. -/
def demoItems3 : List CleanItem :=
  [⟨["a"], true, true, none⟩, ⟨["b"], false, true, none⟩, ⟨["c"], true, true, none⟩]

/-- Evaluation helper: the tie-to-even rounding is the identity on whole
numbers. -/
theorem rhe_intCast (n : ℤ) : rhe ((n : ℚ)) = n := by
  unfold rhe
  rw [Int.floor_intCast]
  norm_num

/-- Evaluation helper: render a value whose tenfold is the integer `n`. -/
theorem fmt1_of_mul_ten (q : ℚ) (n : ℤ) (h : q * 10 = (n : ℚ)) :
    fmt1 q = toString (n / 10) ++ "." ++ toString (n % 10) := by
  unfold fmt1
  rw [h, rhe_intCast]

theorem isAbortSet_false_mono {ab : Option Nat} {i j : Nat} (hij : i ≤ j)
    (h : isAbortSet ab j = false) : isAbortSet ab i = false := by
  cases ab with
  | none => rfl
  | some a =>
    simp only [isAbortSet, decide_eq_false_iff_not] at h ⊢
    omega

theorem scanStep_countP (entries : List Entry) (st : ScanState) (e : Entry)
    (p : Event → Bool) :
    (scanStep entries st e).events.countP p = st.events.countP p
      ∨ ∃ path kind sz mt, (scanStep entries st e).events
          = st.events ++ [Event.found_item path kind sz mt] := by
  unfold scanStep
  split
  · exact Or.inl rfl
  split
  · split
    · exact Or.inr ⟨e.path, "Folder", folderSize entries e.path, e.mtime, rfl⟩
    · exact Or.inl rfl
  · split
    · exact Or.inr ⟨e.path, "File", e.size, e.mtime, rfl⟩
    · exact Or.inl rfl

theorem sumFound_append (l1 l2 : List Event) :
    sumFound (l1 ++ l2) = sumFound l1 + sumFound l2 := by
  simp [sumFound, foundSizes, List.filterMap_append]

theorem sumFound_found (p : List String) (k : String) (s : Nat) (m : String) :
    sumFound [Event.found_item p k s m] = s := by
  simp [sumFound, foundSizes]

theorem scanStep_inv (entries : List Entry) (st : ScanState) (e : Entry)
    (h : ScanInv st) : ScanInv (scanStep entries st e) := by
  obtain ⟨h1, h2, h3⟩ := h
  unfold ScanInv scanStep
  split
  · exact ⟨h1, h2, h3⟩
  split
  · split
    · refine ⟨?_, ?_, ?_⟩
      · simp [List.countP_append, isScanDone, h1]
      · simp [List.countP_append, isFound, h2]
      · simp [sumFound_append, sumFound_found, h3]
    · exact ⟨h1, h2, h3⟩
  · split
    · refine ⟨?_, ?_, ?_⟩
      · simp [List.countP_append, isScanDone, h1]
      · simp [List.countP_append, isFound, h2]
      · simp [sumFound_append, sumFound_found, h3]
    · exact ⟨h1, h2, h3⟩

theorem foldl_scanInv (entries : List Entry) :
    ∀ (rest : List Entry) (st : ScanState), ScanInv st →
      ScanInv (rest.foldl (scanStep entries) st) := by
  intro rest
  induction rest with
  | nil => intro st h; exact h
  | cons e rest ih =>
    intro st h
    exact ih (scanStep entries st e) (scanStep_inv entries st e h)

theorem scannerGo_no_abort (entries : List Entry) (ab : Option Nat) :
    ∀ (rest : List Entry) (i : Nat) (st : ScanState),
      isAbortSet ab (i + rest.length) = false →
      scannerGo entries ab i rest st =
        (rest.foldl (scanStep entries) st).events ++
          [Event.scan_done (rest.foldl (scanStep entries) st).totalSize
            (rest.foldl (scanStep entries) st).fileCount] := by
  intro rest
  induction rest with
  | nil =>
    intro i st h
    simp only [List.length_nil, Nat.add_zero] at h
    simp [scannerGo, h]
  | cons e rest ih =>
    intro i st h
    have hi : isAbortSet ab i = false :=
      isAbortSet_false_mono (Nat.le_add_right _ _) h
    have h' : isAbortSet ab (i + 1 + rest.length) = false := by
      have : i + 1 + rest.length = i + (e :: rest).length := by
        simp [List.length_cons]; omega
      rw [this]; exact h
    simp only [scannerGo, hi, Bool.false_eq_true, if_false, List.foldl_cons]
    exact ih (i + 1) (scanStep entries st e) h'

theorem scanStep_scanDone_countP (entries : List Entry) (st : ScanState) (e : Entry) :
    (scanStep entries st e).events.countP isScanDone
      = st.events.countP isScanDone := by
  rcases scanStep_countP entries st e isScanDone with h | ⟨p, k, s, m, h⟩
  · exact h
  · rw [h]; simp [List.countP_append, isScanDone]

theorem scannerGo_abort_nodone (entries : List Entry) (ab : Option Nat) :
    ∀ (rest : List Entry) (i : Nat) (st : ScanState),
      isAbortSet ab (i + rest.length) = true →
      st.events.countP isScanDone = 0 →
      (scannerGo entries ab i rest st).countP isScanDone = 0 := by
  intro rest
  induction rest with
  | nil =>
    intro i st h h0
    simp only [List.length_nil, Nat.add_zero] at h
    simp [scannerGo, h, h0]
  | cons e rest ih =>
    intro i st h h0
    by_cases hi : isAbortSet ab i = true
    · simp [scannerGo, hi, h0]
    · have hi' : isAbortSet ab i = false := by simpa using hi
      have h' : isAbortSet ab (i + 1 + rest.length) = true := by
        have : i + 1 + rest.length = i + (e :: rest).length := by
          simp [List.length_cons]; omega
        rw [this]; exact h
      simp only [scannerGo, hi', Bool.false_eq_true, if_false]
      refine ih (i + 1) (scanStep entries st e) h' ?_
      rw [scanStep_scanDone_countP]; exact h0

/-- C4: for every scan that runs to natural completion without abort, exactly
one `scan_done` summary event is emitted, and its `itemCount` equals the
number of `found_item` events emitted during that scan. -/
theorem scan_done_once_itemCount (entries : List Entry) (ab : Option Nat)
    (hdone : isAbortSet ab entries.length = false) :
    (scanner ab entries).countP isScanDone = 1 ∧
    ∀ ts ic, Event.scan_done ts ic ∈ scanner ab entries →
      ic = (scanner ab entries).countP isFound := by
  have h0 : isAbortSet ab (0 + entries.length) = false := by simpa using hdone
  have hrw := scannerGo_no_abort entries ab entries 0 ⟨0, 0, [], []⟩ h0
  have hinv : ScanInv (entries.foldl (scanStep entries) ⟨0, 0, [], []⟩) :=
    foldl_scanInv entries entries ⟨0, 0, [], []⟩ ⟨rfl, rfl, rfl⟩
  obtain ⟨h1, h2, h3⟩ := hinv
  unfold scanner
  rw [hrw]
  constructor
  · simp [List.countP_append, isScanDone, h1]
  · intro ts ic hmem
    rcases List.mem_append.mp hmem with hmem | hmem
    · exfalso
      have hfa := List.countP_eq_zero.mp h1 _ hmem
      simp [isScanDone] at hfa
    · have heq := List.mem_singleton.mp hmem
      injection heq with hts hic
      subst hic
      simp [List.countP_append, isFound, isScanDone, h2]

/-- C10: for every scan that runs to natural completion without abort, the
`totalSizeBytes` reported in the `scan_done` event equals the exact sum of
the `sizeBytes` fields of all `found_item` events emitted during that scan. -/
theorem scan_done_totalSize (entries : List Entry) (ab : Option Nat)
    (hdone : isAbortSet ab entries.length = false) :
    ∀ ts ic, Event.scan_done ts ic ∈ scanner ab entries →
      ts = sumFound (scanner ab entries) := by
  have h0 : isAbortSet ab (0 + entries.length) = false := by simpa using hdone
  have hrw := scannerGo_no_abort entries ab entries 0 ⟨0, 0, [], []⟩ h0
  have hinv : ScanInv (entries.foldl (scanStep entries) ⟨0, 0, [], []⟩) :=
    foldl_scanInv entries entries ⟨0, 0, [], []⟩ ⟨rfl, rfl, rfl⟩
  obtain ⟨h1, h2, h3⟩ := hinv
  unfold scanner
  rw [hrw]
  intro ts ic hmem
  rcases List.mem_append.mp hmem with hmem | hmem
  · exfalso
    have hfa := List.countP_eq_zero.mp h1 _ hmem
    simp [isScanDone] at hfa
  · have heq := List.mem_singleton.mp hmem
    injection heq with hts hic
    subst hts
    rw [sumFound_append, h3]
    simp [sumFound, foundSizes]

/-- C5: for every scan in which the abort flag is observed set at a check
point no later than the traversal's final one, the worker emits no
`scan_done` event at all — the scan never emits a summary after
cancellation. -/
theorem scan_abort_no_summary (entries : List Entry) (a : Nat)
    (h : a ≤ entries.length) :
    (scanner (some a) entries).countP isScanDone = 0 := by
  unfold scanner
  apply scannerGo_abort_nodone
  · simp only [isAbortSet, Nat.zero_add, decide_eq_true_eq]; omega
  · rfl

theorem isAncestorOf_irrefl (p : List String) : isAncestorOf p p = false := by
  simp [isAncestorOf]

theorem c3_base (entries : List Entry) (st : ScanState) (evs : List Event)
    (hev : ∀ q k s' m', Event.found_item q k s' m' ∈ evs →
      Event.found_item q k s' m' ∈ st.events)
    (hI2 : ∀ p s m, Event.found_item p "Folder" s m ∈ st.events →
      p ∈ st.processed ∧ s = folderSize entries p)
    (hI3 : ∀ r ∈ st.processed, ∀ q k s' m',
      Event.found_item q k s' m' ∈ st.events → isAncestorOf r q = false) :
    ∀ p s m, Event.found_item p "Folder" s m ∈ evs →
      (∀ q k s' m', isAncestorOf p q = true →
        Event.found_item q k s' m' ∉ evs) ∧
      s = folderSize entries p := by
  intro p s m hmem
  obtain ⟨hproc, hsize⟩ := hI2 p s m (hev _ _ _ _ hmem)
  refine ⟨?_, hsize⟩
  intro q k s' m' hanc hq
  have hfalse := hI3 p hproc q k s' m' (hev _ _ _ _ hq)
  simp [hfalse] at hanc

theorem scannerGo_c3 (entries : List Entry) (ab : Option Nat) :
    ∀ (rest : List Entry) (i : Nat) (st : ScanState) (consumed : List Entry),
      (∀ e1 ∈ consumed, ∀ e2 ∈ rest, isAncestorOf e2.path e1.path = false) →
      rest.Pairwise (fun e1 e2 => isAncestorOf e2.path e1.path = false) →
      (∀ q k s' m', Event.found_item q k s' m' ∈ st.events →
        q ∈ consumed.map Entry.path) →
      (∀ p s m, Event.found_item p "Folder" s m ∈ st.events →
        p ∈ st.processed ∧ s = folderSize entries p) →
      (∀ r ∈ st.processed, ∀ q k s' m',
        Event.found_item q k s' m' ∈ st.events → isAncestorOf r q = false) →
      ∀ p s m, Event.found_item p "Folder" s m ∈ scannerGo entries ab i rest st →
        (∀ q k s' m', isAncestorOf p q = true →
          Event.found_item q k s' m' ∉ scannerGo entries ab i rest st) ∧
        s = folderSize entries p := by
  intro rest
  induction rest with
  | nil =>
    intro i st consumed hsplit hrest hI1 hI2 hI3
    by_cases habort : isAbortSet ab i = true
    · simp only [scannerGo, habort, if_true]
      exact c3_base entries st st.events (fun _ _ _ _ h => h) hI2 hI3
    · have habort' : isAbortSet ab i = false := by simpa using habort
      simp only [scannerGo, habort', Bool.false_eq_true, if_false]
      refine c3_base entries st _ ?_ hI2 hI3
      intro q k s' m' h
      rcases List.mem_append.mp h with h | h
      · exact h
      · exact absurd (List.mem_singleton.mp h) (by simp)
  | cons e rest ih =>
    intro i st consumed hsplit hrest hI1 hI2 hI3
    have hsplit' : ∀ e1 ∈ consumed ++ [e], ∀ e2 ∈ rest,
        isAncestorOf e2.path e1.path = false := by
      intro e1 h1 e2 h2
      rcases List.mem_append.mp h1 with h1 | h1
      · exact hsplit e1 h1 e2 (List.mem_cons_of_mem _ h2)
      · have he1 : e1 = e := List.mem_singleton.mp h1
        subst he1
        exact (List.pairwise_cons.mp hrest).1 e2 h2
    have hrest' : rest.Pairwise (fun e1 e2 => isAncestorOf e2.path e1.path = false) :=
      (List.pairwise_cons.mp hrest).2
    have hConsE : ∀ e1 ∈ consumed, isAncestorOf e.path e1.path = false := by
      intro e1 h1
      exact hsplit e1 h1 e (List.mem_cons_self _ _)
    by_cases habort : isAbortSet ab i = true
    · simp only [scannerGo, habort, if_true]
      exact c3_base entries st st.events (fun _ _ _ _ h => h) hI2 hI3
    · have habort' : isAbortSet ab i = false := by simpa using habort
      simp only [scannerGo, habort', Bool.false_eq_true, if_false]
      by_cases hskip : (st.processed.any fun q => isAncestorOf q e.path) = true
      · have hstep : scanStep entries st e = st := by
          simp [scanStep, hskip]
        rw [hstep]
        refine ih (i + 1) st (consumed ++ [e]) hsplit' hrest' ?_ hI2 hI3
        intro q k s' m' h
        rw [List.map_append]
        exact List.mem_append_left _ (hI1 _ _ _ _ h)
      · have hskip' : (st.processed.any fun q => isAncestorOf q e.path) = false := by
          simpa using hskip
        have hnoproc : ∀ r ∈ st.processed, isAncestorOf r e.path = false := by
          intro r hr
          have := List.any_eq_false.mp hskip' r hr
          simpa using this
        by_cases hdir : e.isDir = true
        · by_cases hmatch : matches_patterns e.name junkFolders = true
          · have hstep : scanStep entries st e =
                { totalSize := st.totalSize + folderSize entries e.path
                  fileCount := st.fileCount + 1
                  processed := st.processed ++ [e.path]
                  events := st.events ++
                    [.found_item e.path "Folder" (folderSize entries e.path) e.mtime] } := by
              simp [scanStep, hskip', hdir, hmatch]
            rw [hstep]
            refine ih (i + 1) _ (consumed ++ [e]) hsplit' hrest' ?_ ?_ ?_
            · intro q k s' m' h
              rcases List.mem_append.mp h with h | h
              · rw [List.map_append]
                exact List.mem_append_left _ (hI1 _ _ _ _ h)
              · have heq := List.mem_singleton.mp h
                injection heq with hq _ _ _
                subst hq
                rw [List.map_append]
                exact List.mem_append_right _ (by simp)
            · intro p s m h
              rcases List.mem_append.mp h with h | h
              · obtain ⟨hp, hs⟩ := hI2 p s m h
                exact ⟨List.mem_append_left _ hp, hs⟩
              · have heq := List.mem_singleton.mp h
                injection heq with hq _ hs _
                subst hq
                subst hs
                exact ⟨List.mem_append_right _ (by simp), rfl⟩
            · intro r hr q k s' m' hqev
              rcases List.mem_append.mp hr with hr | hr
              · rcases List.mem_append.mp hqev with hqev | hqev
                · exact hI3 r hr q k s' m' hqev
                · have heq := List.mem_singleton.mp hqev
                  injection heq with hq _ _ _
                  subst hq
                  exact hnoproc r hr
              · have hre : r = e.path := List.mem_singleton.mp hr
                subst hre
                rcases List.mem_append.mp hqev with hqev | hqev
                · obtain ⟨e1, he1, he1p⟩ := List.mem_map.mp (hI1 q k s' m' hqev)
                  rw [← he1p]
                  exact hConsE e1 he1
                · have heq := List.mem_singleton.mp hqev
                  injection heq with hq _ _ _
                  subst hq
                  exact isAncestorOf_irrefl _
          · have hstep : scanStep entries st e = st := by
              simp [scanStep, hskip', hdir, hmatch]
            rw [hstep]
            refine ih (i + 1) st (consumed ++ [e]) hsplit' hrest' ?_ hI2 hI3
            intro q k s' m' h
            rw [List.map_append]
            exact List.mem_append_left _ (hI1 _ _ _ _ h)
        · have hdir' : e.isDir = false := by simpa using hdir
          by_cases hfm : (matches_patterns e.name junkNames
              || (junkExtensions.map lowerStr).contains (lowerStr (pySuffix e.name))) = true
          · have hstep : scanStep entries st e =
                { totalSize := st.totalSize + e.size
                  fileCount := st.fileCount + 1
                  processed := st.processed
                  events := st.events ++ [.found_item e.path "File" e.size e.mtime] } := by
              unfold scanStep
              rw [hskip', hdir', hfm]
              simp
            rw [hstep]
            refine ih (i + 1) _ (consumed ++ [e]) hsplit' hrest' ?_ ?_ ?_
            · intro q k s' m' h
              rcases List.mem_append.mp h with h | h
              · rw [List.map_append]
                exact List.mem_append_left _ (hI1 _ _ _ _ h)
              · have heq := List.mem_singleton.mp h
                injection heq with hq _ _ _
                subst hq
                rw [List.map_append]
                exact List.mem_append_right _ (by simp)
            · intro p s m h
              rcases List.mem_append.mp h with h | h
              · exact hI2 p s m h
              · have heq := List.mem_singleton.mp h
                injection heq with _ hk _ _
                exact absurd hk (by decide)
            · intro r hr q k s' m' hqev
              rcases List.mem_append.mp hqev with hqev | hqev
              · exact hI3 r hr q k s' m' hqev
              · have heq := List.mem_singleton.mp hqev
                injection heq with hq _ _ _
                subst hq
                exact hnoproc r hr
          · have hfm' : (matches_patterns e.name junkNames
                || (junkExtensions.map lowerStr).contains (lowerStr (pySuffix e.name))) = false := by
              simpa using hfm
            have hstep : scanStep entries st e = st := by
              unfold scanStep
              rw [hskip', hdir', hfm']
              simp
            rw [hstep]
            refine ih (i + 1) st (consumed ++ [e]) hsplit' hrest' ?_ hI2 hI3
            intro q k s' m' h
            rw [List.map_append]
            exact List.mem_append_left _ (hI1 _ _ _ _ h)

/-- C3: in every scan whose `rglob` listing yields ancestors before their
descendants, once a directory is emitted as a Folder `FoundItem` (and
recorded in the processed set), no descendant path of it is ever separately
emitted as a `FoundItem` in that scan, and the folder's reported size equals
the exact sum of the sizes of all regular files transitively beneath it in
the scan-time listing. -/
theorem folder_pruning_and_size (entries : List Entry) (ab : Option Nat)
    (hord : entries.Pairwise fun e1 e2 => isAncestorOf e2.path e1.path = false)
    (p : List String) (s : Nat) (m : String)
    (hmem : Event.found_item p "Folder" s m ∈ scanner ab entries) :
    (∀ q k s' m', isAncestorOf p q = true →
      Event.found_item q k s' m' ∉ scanner ab entries) ∧
    s = folderSize entries p := by
  unfold scanner at hmem ⊢
  refine scannerGo_c3 entries ab entries 0 ⟨0, 0, [], []⟩ []
    ?_ hord ?_ ?_ ?_ p s m hmem
  · intro e1 h1
    exact absurd h1 (List.not_mem_nil _)
  · intro q k s' m' h
    exact absurd h (List.not_mem_nil _)
  · intro p' s' m' h
    exact absurd h (List.not_mem_nil _)
  · intro r hr
    exact absurd hr (List.not_mem_nil _)

theorem cleanStep_delay (delay : ℚ) (r : CleanResult) (it : CleanItem) :
    (cleanStep delay r it).delay = r.delay := by
  unfold cleanStep
  repeat' split
  all_goals rfl

theorem cleanerGo_delay (ab : Option Nat) (delay : ℚ) :
    ∀ (items : List CleanItem) (i : Nat) (r : CleanResult),
      (cleanerGo ab delay i items r).delay = r.delay := by
  intro items
  induction items with
  | nil => intro i r; rfl
  | cons it rest ih =>
    intro i r
    by_cases hi : isAbortSet ab i = true
    · simp [cleanerGo, hi]
    · have hi' : isAbortSet ab i = false := by simpa using hi
      simp only [cleanerGo, hi', Bool.false_eq_true, if_false]
      rw [ih (i + 1) (cleanStep delay r it), cleanStep_delay]

theorem cleanStep_sleeps (delay : ℚ) (r : CleanResult) (it : CleanItem)
    (h : r.sleeps = List.replicate r.deleted.length delay) :
    (cleanStep delay r it).sleeps
      = List.replicate (cleanStep delay r it).deleted.length delay := by
  unfold cleanStep
  repeat' split
  all_goals simp [h, List.replicate_add]

theorem cleanerGo_sleeps (ab : Option Nat) (delay : ℚ) :
    ∀ (items : List CleanItem) (i : Nat) (r : CleanResult),
      r.sleeps = List.replicate r.deleted.length delay →
      (cleanerGo ab delay i items r).sleeps
        = List.replicate (cleanerGo ab delay i items r).deleted.length delay := by
  intro items
  induction items with
  | nil => intro i r h; simpa [cleanerGo] using h
  | cons it rest ih =>
    intro i r h
    by_cases hi : isAbortSet ab i = true
    · simpa [cleanerGo, hi] using h
    · have hi' : isAbortSet ab i = false := by simpa using hi
      simp only [cleanerGo, hi', Bool.false_eq_true, if_false]
      exact ih (i + 1) (cleanStep delay r it) (cleanStep_sleeps delay r it h)

theorem cleanStep_events_cd (delay : ℚ) (r : CleanResult) (it : CleanItem) :
    (cleanStep delay r it).events.countP isCleanDone
      = r.events.countP isCleanDone := by
  unfold cleanStep
  repeat' split
  all_goals simp [List.countP_append, isCleanDone]

theorem cleanerGo_cd (ab : Option Nat) (delay : ℚ) :
    ∀ (items : List CleanItem) (i : Nat) (r : CleanResult),
      r.events.countP isCleanDone = 0 →
      (cleanerGo ab delay i items r).events.countP isCleanDone = 1 := by
  intro items
  induction items with
  | nil =>
    intro i r h
    simp [cleanerGo, List.countP_append, isCleanDone, h]
  | cons it rest ih =>
    intro i r h
    by_cases hi : isAbortSet ab i = true
    · simp [cleanerGo, hi, List.countP_append, isCleanDone, h]
    · have hi' : isAbortSet ab i = false := by simpa using hi
      simp only [cleanerGo, hi', Bool.false_eq_true, if_false]
      refine ih (i + 1) (cleanStep delay r it) ?_
      rw [cleanStep_events_cd]; exact h

theorem cleanerGo_abort_take (delay : ℚ) (a : Nat) :
    ∀ (items : List CleanItem) (i : Nat) (r : CleanResult),
      i ≤ a → a - i ≤ items.length →
      cleanerGo (some a) delay i items r
        = cleanerGo none delay i (items.take (a - i)) r := by
  intro items
  induction items with
  | nil =>
    intro i r _ h2
    have h0 : a - i = 0 := Nat.le_zero.mp (by simpa using h2)
    rw [h0]
    rfl
  | cons it rest ih =>
    intro i r h1 h2
    by_cases hia : i = a
    · subst hia
      have habort : isAbortSet (some i) i = true := by simp [isAbortSet]
      rw [Nat.sub_self]
      simp [cleanerGo, habort, List.take_zero]
    · have hlt : i < a := lt_of_le_of_ne h1 hia
      have hd : decide (a ≤ i) = false := by
        simp only [decide_eq_false_iff_not]
        omega
      have htake : a - i = (a - (i + 1)) + 1 := by omega
      rw [htake, List.take_succ_cons]
      simp only [cleanerGo, isAbortSet, hd, Bool.false_eq_true, if_false]
      exact ih (i + 1) (cleanStep delay r it) (by omega)
        (by simp only [List.length_cons] at h2; omega)

theorem cleanStep_events_fail (delay : ℚ) (r : CleanResult) (it : CleanItem) :
    (cleanStep delay r it).events = r.events ++ (failEvent it).toList := by
  unfold cleanStep failEvent
  repeat' split
  all_goals simp_all

theorem cleanStep_deleted (delay : ℚ) (r : CleanResult) (it : CleanItem) :
    (cleanStep delay r it).deleted = r.deleted ++ (delPath it).toList := by
  unfold cleanStep delPath
  repeat' split
  all_goals simp_all

theorem cleanerGo_none_events (delay : ℚ) :
    ∀ (items : List CleanItem) (i : Nat) (r : CleanResult),
      (cleanerGo none delay i items r).events
        = r.events ++ items.filterMap failEvent ++ [Event.clean_done] := by
  intro items
  induction items with
  | nil => intro i r; simp [cleanerGo]
  | cons it rest ih =>
    intro i r
    simp only [cleanerGo, isAbortSet, Bool.false_eq_true, if_false]
    rw [ih (i + 1) (cleanStep delay r it), cleanStep_events_fail]
    cases hfe : failEvent it <;> simp [List.filterMap_cons, hfe]

theorem cleanerGo_none_deleted (delay : ℚ) :
    ∀ (items : List CleanItem) (i : Nat) (r : CleanResult),
      (cleanerGo none delay i items r).deleted
        = r.deleted ++ items.filterMap delPath := by
  intro items
  induction items with
  | nil => intro i r; simp [cleanerGo]
  | cons it rest ih =>
    intro i r
    simp only [cleanerGo, isAbortSet, Bool.false_eq_true, if_false]
    rw [ih (i + 1) (cleanStep delay r it), cleanStep_deleted]
    cases hfe : delPath it <;> simp [List.filterMap_cons, hfe]

/-- C1 counterexample: in the specified scenario — three target paths whose
second is already missing on disk — the pass emits no `clean_error` at all,
not the exactly one the claim requires: the `path.exists()` guard silently
skips a missing path without reporting it. -/
theorem clean_missing_path_no_error :
    (cleaner none demoItems3).events.countP isCleanError ≠ 1 := by
  decide

/-- C1 (amended): every deletion failure raised as an `OSError` while
unlinking an existing file produces exactly one `clean_error` naming that
path and the error text, and does not stop the pass — the event stream of an
unaborted pass is exactly the per-item failure events in order followed by
one `clean_done`, and the removals are exactly the per-item successful
deletions in order. A path that is missing on disk is skipped silently (and
directory removal errors are suppressed by `ignore_errors=True`), so deleting
3 paths where the second is missing yields zero `clean_error`, two
removals, and one `clean_done`. -/
theorem clean_error_reporting :
    (∀ items : List CleanItem,
      (cleaner none items).events = items.filterMap failEvent ++ [Event.clean_done]
      ∧ (cleaner none items).deleted = items.filterMap delPath)
    ∧ (cleaner none demoItems3).events = [Event.clean_done]
    ∧ (cleaner none demoItems3).deleted = [["a"], ["c"]] := by
  have hgen : ∀ items : List CleanItem,
      (cleaner none items).events = items.filterMap failEvent ++ [Event.clean_done]
      ∧ (cleaner none items).deleted = items.filterMap delPath := by
    intro items
    constructor
    · unfold cleaner
      rw [cleanerGo_none_events]
      simp
    · unfold cleaner
      rw [cleanerGo_none_deleted]
      simp
  refine ⟨hgen, ?_, ?_⟩
  · rw [(hgen demoItems3).1]
    decide
  · rw [(hgen demoItems3).2]
    decide

/-- C6: for every clean invocation in which the abort flag is observed set
before the pass has handled all items, the pass checks the flag before each
deletion and stops there: its events and removals are exactly those of
processing only the items before the cancellation point (deletions already
performed are kept, nothing is rolled back), and it still emits exactly one
terminal `clean_done`. -/
theorem clean_abort_partial (items : List CleanItem) (a : Nat)
    (h : a ≤ items.length) :
    cleaner (some a) items
      = cleanerRun (if 0 < items.length then (3 / 2 : ℚ) / (items.length : ℚ) else 0)
          (items.take a)
    ∧ (cleaner (some a) items).events.countP isCleanDone = 1 := by
  constructor
  · show cleanerGo (some a) _ 0 items ⟨[], [], [], _⟩ = _
    unfold cleanerRun
    have := cleanerGo_abort_take
      (if 0 < items.length then (3 / 2 : ℚ) / (items.length : ℚ) else 0) a items 0
      ⟨[], [], [],
        if 0 < items.length then (3 / 2 : ℚ) / (items.length : ℚ) else 0⟩
      (Nat.zero_le a) (by simpa using h)
    simpa using this
  · show (cleanerGo (some a) _ 0 items ⟨[], [], [], _⟩).events.countP isCleanDone = 1
    exact cleanerGo_cd _ _ items 0 _ rfl

/-- C7: for every clean invocation over `n` items, the computed pacing delay
is `1.5 / n` for `n > 0` and `0` for `n = 0`, and the pass sleeps exactly
that delay once after each successful removal (one sleep per removal, each of
exactly the computed delay). -/
theorem clean_pacing_delay (ab : Option Nat) (items : List CleanItem) :
    (cleaner ab items).delay
      = (if 0 < items.length then (3 / 2 : ℚ) / (items.length : ℚ) else 0)
    ∧ (cleaner ab items).sleeps
      = List.replicate (cleaner ab items).deleted.length (cleaner ab items).delay := by
  have hdelay : (cleaner ab items).delay
      = (if 0 < items.length then (3 / 2 : ℚ) / (items.length : ℚ) else 0) := by
    show (cleanerGo ab _ 0 items ⟨[], [], [], _⟩).delay = _
    rw [cleanerGo_delay]
  refine ⟨hdelay, ?_⟩
  rw [hdelay]
  show (cleanerGo ab _ 0 items ⟨[], [], [], _⟩).sleeps = _
  exact cleanerGo_sleeps ab _ items 0 _ rfl

/-- C6 witness: cancelling the three-item fixture pass after one item leaves
exactly the first item's processing and one `clean_done`. -/
theorem clean_abort_partial_witness :
    cleaner (some 1) demoItems3
      = cleanerRun
          (if 0 < demoItems3.length then (3 / 2 : ℚ) / (demoItems3.length : ℚ) else 0)
          (demoItems3.take 1)
    ∧ (cleaner (some 1) demoItems3).events.countP isCleanDone = 1 :=
  clean_abort_partial demoItems3 1 (by decide)

/-- C2 counterexample: the candidate `.ZCOMPDUMP-X` matches the name
category in the code (which force-lowers the candidate before the
case-sensitive pattern `\.zcompdump-.*` is searched), while under the
specification's rule semantics — the rule's own case policy applied to the
unlowered candidate — no name rule is satisfied. -/
theorem matcher_case_policy_counterexample :
    matches_patterns ".ZCOMPDUMP-X" junkNames = true
    ∧ matchesSpec ".ZCOMPDUMP-X" junkNames = false := by
  decide

/-- C2 (amended): the matcher returns true iff at least one rule of the
category is satisfied, where a (non-empty) literal rule is satisfied only by
exact case-insensitive equality of the whole name, and a regular-expression
rule is satisfied when its pattern is found anywhere in the
**lower-cased** candidate — the candidate is force-lowered for every rule,
regardless of the rule's own case policy. -/
theorem matcher_iff_lowered (filename : String) (patterns : List JunkPattern) :
    matches_patterns filename patterns = true
      ↔ ∃ p ∈ patterns, ruleSatisfiedLowered filename p = true := by
  unfold matches_patterns
  rw [List.any_eq_true]
  refine exists_congr fun p => and_congr_right fun _ => ?_
  cases p with
  | lit s => simp [JunkPattern.truthy, ruleSatisfiedLowered]
  | regex stem ic => simp [JunkPattern.truthy, ruleSatisfiedLowered]

/-- C9 counterexample: calling `Core.scan` or `Core.clean` while a worker is
running surfaces no rejection whatsoever — the call succeeds. -/
theorem busy_start_not_rejected :
    isRejection (Core.scan ⟨false, [], true⟩) = false
    ∧ isRejection (Core.clean ⟨false, [], true⟩) = false :=
  ⟨rfl, rfl⟩

/-- C9 (amended): starting a scan or a clean in any engine state — including
while a previous operation is still running — is never rejected: the call
silently resets the engine (abort flag cleared, fresh empty queue) and starts
a new worker. -/
theorem busy_start_resets (s : CoreState) :
    Core.scan s = Except.ok ⟨false, [], true⟩
    ∧ Core.clean s = Except.ok ⟨false, [], true⟩ :=
  ⟨rfl, rfl⟩

/-- C8 counterexample: at 1024 GB (1 TiB) the loop's last iteration divides
by 1024 a fourth time before rendering, so the code prints `1.0 GB` where
the claim requires the value to stay in GB unscaled, `1024.0 GB`. -/
theorem format_size_scales_past_gb :
    format_size 1099511627776 = "1.0 GB"
    ∧ format_size 1099511627776 ≠ "1024.0 GB"
    ∧ formatSizeSpec 1099511627776 = "1024.0 GB" := by
  have h1 : format_size 1099511627776 = "1.0 GB" := by
    have h : sizeLoop ((1099511627776 : ℕ) : ℚ) ["B", "KB", "MB", "GB"]
        = (1, "GB") := by
      norm_num [sizeLoop]
    simp only [format_size, h]
    rw [fmt1_of_mul_ten 1 10 (by norm_num)]
    rfl
  have h2 : formatSizeSpec 1099511627776 = "1024.0 GB" := by
    have hc1 : ¬ ((1099511627776 : ℕ) : ℚ) < 1024 := by norm_num
    have hc2 : ¬ ((1099511627776 : ℕ) : ℚ) < 1024 ^ 2 := by norm_num
    have hc3 : ¬ ((1099511627776 : ℕ) : ℚ) < 1024 ^ 3 := by norm_num
    unfold formatSizeSpec
    rw [if_neg hc1, if_neg hc2, if_neg hc3,
      show ((1099511627776 : ℕ) : ℚ) / 1024 ^ 3 = 1024 by norm_num,
      fmt1_of_mul_ten 1024 10240 (by norm_num)]
    rfl
  exact ⟨h1, by rw [h1]; decide, h2⟩

/-- C8 (amended): `format_size` renders with binary (1024) units and one
decimal place, dividing by 1024 at each unit whose scaled value is still at
least 1024 — including the final `GB` iteration, so a value of 1024 GB or
more is divided a fourth time and rendered with the `GB` label (it is not
left unscaled as the specification states). In particular
`format_size 0 = "0.0 B"`, `format_size 1024 = "1.0 KB"`,
`format_size 1536 = "1.5 KB"` and `format_size 1073741824 = "1.0 GB"`. -/
theorem format_size_characterization :
    (∀ b : ℕ, format_size b =
      if (b : ℚ) < 1024 then fmt1 ((b : ℚ)) ++ " B"
      else if (b : ℚ) < 1024 ^ 2 then fmt1 ((b : ℚ) / 1024) ++ " KB"
      else if (b : ℚ) < 1024 ^ 3 then fmt1 ((b : ℚ) / 1024 ^ 2) ++ " MB"
      else if (b : ℚ) < 1024 ^ 4 then fmt1 ((b : ℚ) / 1024 ^ 3) ++ " GB"
      else fmt1 ((b : ℚ) / 1024 ^ 4) ++ " GB")
    ∧ format_size 0 = "0.0 B"
    ∧ format_size 1024 = "1.0 KB"
    ∧ format_size 1536 = "1.5 KB"
    ∧ format_size 1073741824 = "1.0 GB" := by
  refine ⟨?_, ?_, ?_, ?_, ?_⟩
  · intro b
    have h1024 : (0 : ℚ) < 1024 := by norm_num
    have e2 : (b : ℚ) / 1024 / 1024 = (b : ℚ) / 1024 ^ 2 := by
      rw [div_div]; norm_num
    have e3 : (b : ℚ) / 1024 ^ 2 / 1024 = (b : ℚ) / 1024 ^ 3 := by
      rw [div_div]; norm_num
    have e4 : (b : ℚ) / 1024 ^ 3 / 1024 = (b : ℚ) / 1024 ^ 4 := by
      rw [div_div]; norm_num
    have c2 : ((b : ℚ) / 1024 < 1024) ↔ ((b : ℚ) < 1024 ^ 2) := by
      rw [div_lt_iff₀ h1024]; norm_num
    have c3 : ((b : ℚ) / 1024 ^ 2 < 1024) ↔ ((b : ℚ) < 1024 ^ 3) := by
      rw [div_lt_iff₀ (by positivity)]; norm_num
    have c4 : ((b : ℚ) / 1024 ^ 3 < 1024) ↔ ((b : ℚ) < 1024 ^ 4) := by
      rw [div_lt_iff₀ (by positivity)]; norm_num
    unfold format_size
    by_cases h1 : (b : ℚ) < 1024
    · simp [sizeLoop, h1]
      rw [String.append_assoc]
      rfl
    · by_cases h2 : (b : ℚ) < 1024 ^ 2
      · have hd1 : (b : ℚ) / 1024 < 1024 := c2.mpr h2
        simp [sizeLoop, h1, h2, hd1]
        rw [String.append_assoc]
        rfl
      · have hd1 : ¬ (b : ℚ) / 1024 < 1024 := fun hc => h2 (c2.mp hc)
        by_cases h3 : (b : ℚ) < 1024 ^ 3
        · have hm : (b : ℚ) / 1024 ^ 2 < 1024 := c3.mpr h3
          simp [sizeLoop, h1, h2, h3, hd1, hm, e2]
          rw [String.append_assoc]
          rfl
        · have hm : ¬ (b : ℚ) / 1024 ^ 2 < 1024 := fun hc => h3 (c3.mp hc)
          by_cases h4 : (b : ℚ) < 1024 ^ 4
          · have hg : (b : ℚ) / 1024 ^ 3 < 1024 := c4.mpr h4
            simp [sizeLoop, h1, h2, h3, h4, hd1, hm, hg, e2, e3]
            rw [String.append_assoc]
            rfl
          · have hg : ¬ (b : ℚ) / 1024 ^ 3 < 1024 := fun hc => h4 (c4.mp hc)
            simp [sizeLoop, h1, h2, h3, h4, hd1, hm, hg, e2, e3, e4]
            rw [String.append_assoc]
            rfl
  · have h : sizeLoop ((0 : ℕ) : ℚ) ["B", "KB", "MB", "GB"] = (0, "B") := by
      norm_num [sizeLoop]
    simp only [format_size, h]
    rw [fmt1_of_mul_ten 0 0 (by norm_num)]
    rfl
  · have h : sizeLoop ((1024 : ℕ) : ℚ) ["B", "KB", "MB", "GB"] = (1, "KB") := by
      norm_num [sizeLoop]
    simp only [format_size, h]
    rw [fmt1_of_mul_ten 1 10 (by norm_num)]
    rfl
  · have h : sizeLoop ((1536 : ℕ) : ℚ) ["B", "KB", "MB", "GB"]
        = (3 / 2, "KB") := by
      norm_num [sizeLoop]
    simp only [format_size, h]
    rw [fmt1_of_mul_ten (3 / 2) 15 (by norm_num)]
    rfl
  · have h : sizeLoop ((1073741824 : ℕ) : ℚ) ["B", "KB", "MB", "GB"]
        = (1, "GB") := by
      norm_num [sizeLoop]
    simp only [format_size, h]
    rw [fmt1_of_mul_ten 1 10 (by norm_num)]
    rfl

/-- C3 witness: in the fixture scan the `Logs` folder is emitted with
aggregated size 100, its contained file is never separately emitted, and the
reported size is the exact sum of the file sizes beneath it. -/
theorem folder_pruning_and_size_witness :
    Event.found_item ["Logs", "a.txt"] "File" 100 "m2" ∉ scanner none demoEntries
    ∧ 100 = folderSize demoEntries ["Logs"] := by
  have h := folder_pruning_and_size demoEntries none (by decide) ["Logs"] 100 "m1"
    (by decide)
  exact ⟨h.1 ["Logs", "a.txt"] "File" 100 "m2" (by decide), h.2⟩

/-- C4 witness: the fixture scan, run to completion, emits exactly one
summary event. -/
theorem scan_done_once_itemCount_witness :
    (scanner none demoEntries).countP isScanDone = 1 :=
  (scan_done_once_itemCount demoEntries none (by decide)).1

/-- C10 witness: the summary of the fixture scan reports exactly the sum of
the emitted item sizes. -/
theorem scan_done_totalSize_witness :
    (100 : Nat) = sumFound (scanner none demoEntries) :=
  scan_done_totalSize demoEntries none (by decide) 100 1 (by decide)

/-- C5 witness: the fixture scan aborted at its second check point emits no
summary. -/
theorem scan_abort_no_summary_witness :
    (scanner (some 1) demoEntries).countP isScanDone = 0 :=
  scan_abort_no_summary demoEntries 1 (by decide)
